import Mathlib

/-!
Shallow embedding of the `legal-intelligence-text-mining` repository
(`legalintelligence/tools.py` and the parts of `textmining/extract.py` it
uses), together with theorems checking the properties its specification
states about the dataset-construction and dataset-transformation core.

Modelling conventions:
* Python lists become Lean `List`s; the dynamic `Bunch` dataset record becomes
  the `Dataset` structure with its six fields.
* The optional second-level label (`None` in Python) becomes `Option Nat`;
  the absent marker is `none`.
* Functions that can raise an exception in Python (indexing a list with the
  absent marker, `re.sub` applied to a missing XML text) return `Option`;
  `none` models the escaped exception.
* `list(set(...))` over record indices or label indices is modelled as the
  distinct elements in increasing order, which is what CPython produces for
  the contiguous small-integer sets these functions build.
* The external XML parser is modelled by passing `Option XmlNode` to
  `handle_xml_file`: `none` stands for a parse failure (`xmltree.ParseError`).
-/

namespace LegalIntelligence

/-- Python regex class `\s` restricted to the ASCII whitespace characters. -/
def isPySpace (c : Char) : Bool :=
  c == ' ' || c == '\t' || c == '\n' || c == '\r' || c == Char.ofNat 11 || c == Char.ofNat 12

/-- Scanner implementing `re.sub(r"\s*;\s*", ";", s)` on a character list.
The first argument is true just after a semicolon was emitted (whitespace
following a semicolon is consumed by the greedy trailing `\s*`); the second
argument accumulates (in reverse) pending whitespace that may yet precede a
semicolon. -/
def subSemiAux : Bool → List Char → List Char → List Char
  | _, pending, [] => pending.reverse
  | afterSemi, pending, c :: rest =>
    if c == ';' then ';' :: subSemiAux true [] rest
    else if isPySpace c then
      if afterSemi then subSemiAux true pending rest
      else subSemiAux false (c :: pending) rest
    else pending.reverse ++ c :: subSemiAux false [] rest

/-- `re.sub(r"\s*;\s*", ";", s)` from `extract_subjects`. -/
def pySubSemi (s : String) : String :=
  (subSemiAux false [] s.toList).asString

/-- Python `str.split(";")` on a character list: splits at every semicolon,
yielding one more part than there are semicolons. -/
def splitSemiAux : List Char → List (List Char)
  | [] => [[]]
  | c :: rest =>
    if c == ';' then [] :: splitSemiAux rest
    else
      match splitSemiAux rest with
      | [] => [[c]]
      | p :: ps => (c :: p) :: ps

/-- `subject_text.split(";")` from `extract_subjects`. -/
def pySplitSemi (s : String) : List String :=
  (splitSemiAux s.toList).map List.asString

/-- Python `str.strip(sep)`: remove leading and trailing characters that occur
in `sep` (with `sep` the separator string of `extract_text_from_xml`). -/
def pyStrip (sep : String) (s : String) : String :=
  let isSep : Char → Bool := fun c => sep.toList.contains c
  (((s.toList.dropWhile isSep).reverse.dropWhile isSep).reverse).asString

/-- An XML element as consumed by the repository: its (namespace-expanded)
tag, its text (Python `Element.text`, which is `None` for an empty element),
and its child elements in document order. -/
inductive XmlNode where
  | mk (tag : String) (text : Option String) (children : List XmlNode)

/-- Tag of an XML element. -/
def XmlNode.tag : XmlNode → String
  | .mk t _ _ => t

/-- Text of an XML element (`Element.text`, absent for empty elements). -/
def XmlNode.text : XmlNode → Option String
  | .mk _ x _ => x

/-- Child elements of an XML element. -/
def XmlNode.children : XmlNode → List XmlNode
  | .mk _ _ c => c

mutual
/-- A node together with all of its descendants, in document (preorder)
order. -/
def selfAndDesc : XmlNode → List XmlNode
  | .mk t x cs => .mk t x cs :: selfAndDescList cs

/-- Descendants-or-self of each node of a list, in document order. -/
def selfAndDescList : List XmlNode → List XmlNode
  | [] => []
  | n :: ns => selfAndDesc n ++ selfAndDescList ns
end

/-- `node.findall(".//tag", namespace)`: all proper descendants of `node`
carrying the given (namespace-expanded) tag, in document order. -/
def findallDesc (tag : String) (node : XmlNode) : List XmlNode :=
  (selfAndDescList node.children).filter (fun n => n.tag == tag)

/-- The namespace-expanded tag `dcterms:subject` matched by
`extract_subjects`. -/
def subjectTag : String := "\x7bhttp://purl.org/dc/terms/\x7dsubject"

mutual
/-- `extract_text_from_xml(node, separator)` from `textmining/extract.py`:
the node text (when present) followed by each child's extracted text, each
followed by the separator, with separator characters stripped from both
ends. -/
def extract_text_from_xml : XmlNode → String → String
  | .mk _ txt cs, sep =>
    pyStrip sep ((match txt with | some t => t ++ sep | none => "") ++ extractTextList cs sep)

/-- The loop body of `extract_text_from_xml`: concatenate each child's
extracted text followed by the separator. -/
def extractTextList : List XmlNode → String → String
  | [], _ => ""
  | c :: cs, sep => extract_text_from_xml c sep ++ sep ++ extractTextList cs sep
end

/-- The loop of `extract_subjects`: for each found subject node, apply
`re.sub` and `split` to its text and extend the accumulator.  When a subject
node has no text (`Element.text is None`), `re.sub` raises `TypeError`,
modelled by `none`. -/
def extractSubjectsLoop : List XmlNode → List String → Option (List String)
  | [], acc => some acc
  | sn :: rest, acc =>
    match sn.text with
    | none => none
    | some t => extractSubjectsLoop rest (acc ++ pySplitSemi (pySubSemi t))

/-- `extract_subjects(node)` from `legalintelligence/tools.py`. -/
def extract_subjects (node : XmlNode) : Option (List String) :=
  extractSubjectsLoop (findallDesc subjectTag node) []

/-- The dataset `Bunch` with its six parallel fields.  `target2` entries are
label indices or the absent marker `none`. -/
@[ext]
structure Dataset where
  files : List String
  data : List String
  target1 : List Nat
  target2 : List (Option Nat)
  target1_names : List String
  target2_names : List String
deriving DecidableEq

/-- The empty dataset built by `LegalIntelligenceExtractor.__init__`. -/
def emptyDataset : Dataset :=
  { files := [], data := [], target1 := [], target2 := [],
    target1_names := [], target2_names := [] }

/-- The structural invariants of the data model: parallel sequences of equal
length, label indices in bounds, duplicate-free name tables, and no orphaned
names. -/
def invariants (d : Dataset) : Prop :=
  (d.files.length = d.data.length ∧ d.data.length = d.target1.length ∧
    d.target1.length = d.target2.length) ∧
  (∀ t ∈ d.target1, t < d.target1_names.length) ∧
  (∀ t ∈ d.target2, ∀ k, t = some k → k < d.target2_names.length) ∧
  (d.target1_names.Nodup ∧ d.target2_names.Nodup) ∧
  (∀ j, j < d.target1_names.length → j ∈ d.target1) ∧
  (∀ j, j < d.target2_names.length → some j ∈ d.target2)

instance (d : Dataset) : Decidable (invariants d) := by
  unfold invariants
  infer_instance

/-- `LegalIntelligenceExtractor.handle_xml_file(path, content)`, acting on the
extractor's dataset.  The `parsed` argument is the outcome of
`xmltree.fromstring(content)` (`none` for a parse failure, which the method
catches and turns into an unchanged dataset).  A `none` result models an
exception escaping the method. -/
def handle_xml_file (d : Dataset) (path : String) (parsed : Option XmlNode)
    (separator : String) : Option Dataset :=
  match parsed with
  | none => some d
  | some root =>
    let text := extract_text_from_xml root separator
    match extract_subjects root with
    | none => none
    | some subjects =>
      if subjects.length = 1 ∨ subjects.length = 2 then
        let subject1 := subjects.getD 0 ""
        let t1names :=
          if subject1 ∈ d.target1_names then d.target1_names
          else d.target1_names ++ [subject1]
        let t1 := d.target1 ++ [t1names.indexOf subject1]
        if subjects.length = 2 then
          let subject2 := subjects.getD 1 ""
          let t2names :=
            if subject2 ∈ d.target2_names then d.target2_names
            else d.target2_names ++ [subject2]
          some { files := d.files ++ [path], data := d.data ++ [text],
                 target1 := t1, target1_names := t1names,
                 target2 := d.target2 ++ [some (t2names.indexOf subject2)],
                 target2_names := t2names }
        else
          some { files := d.files ++ [path], data := d.data ++ [text],
                 target1 := t1, target1_names := t1names,
                 target2 := d.target2 ++ [none],
                 target2_names := d.target2_names }
      else some d

/-- `list(set(targets))` for the label-index lists handled by
`cleanup_target_names`: the distinct values in increasing order (CPython's
iteration order for the contiguous small-integer sets arising here). -/
def pySetList (targets : List Nat) : List Nat :=
  List.insertionSort (· ≤ ·) targets.dedup

/-- The comprehension `[list(target_names)[target] for target in ts]`:
Python list indexing raises `IndexError` out of bounds, modelled by `none`. -/
def pyIndexList (target_names : List String) : List Nat → Option (List String)
  | [] => some []
  | t :: ts =>
    match target_names.get? t, pyIndexList target_names ts with
    | some name, some names => some (name :: names)
    | _, _ => none

/-- `cleanup_target_names(targets, target_names)` on a list of plain label
indices (its `target1` call site): keep only the used names and renumber the
targets through the position of their value in `list(set(targets))`. -/
def cleanup_target_names (targets : List Nat) (target_names : List String) :
    Option (List Nat × List String) :=
  match pyIndexList target_names (pySetList targets) with
  | none => none
  | some new_names =>
    some (targets.map (fun t => (pySetList targets).indexOf t), new_names)

/-- `cleanup_target_names` at its `target2` call site, where the values may
contain the absent marker.  In Python the comprehension then evaluates
`list(target_names)[None]`, raising `TypeError`; this is modelled by `none`
whenever any value is absent. -/
def cleanup_target_names_opt (targets : List (Option Nat))
    (target_names : List String) : Option (List Nat × List String) :=
  if targets.all (fun t => t.isSome) then
    cleanup_target_names (targets.map (fun t => t.getD 0)) target_names
  else none

/-- `list(set(range(0, len(dataset.files))) - set(indices_to_remove))`: the
retained record indices, in increasing order. -/
def retained_indices (dataset : Dataset) (indices_to_remove : List Nat) :
    List Nat :=
  (List.range dataset.files.length).filter
    (fun i => decide (i ∉ indices_to_remove))

/-- The retained `target1` values, in retained order. -/
def keptT1 (dataset : Dataset) (indices_to_remove : List Nat) : List Nat :=
  (retained_indices dataset indices_to_remove).map
    (fun i => dataset.target1.getD i 0)

/-- The retained `target2` values (possibly absent), in retained order. -/
def keptT2 (dataset : Dataset) (indices_to_remove : List Nat) :
    List (Option Nat) :=
  (retained_indices dataset indices_to_remove).map
    (fun i => dataset.target2.getD i none)

/-- `remove_indices(dataset, indices_to_remove)`: keep the records outside
`indices_to_remove` and recompact both name tables.  A `none` result models
the exception raised by `cleanup_target_names` (absent marker or index out of
bounds used to index a name table). -/
def remove_indices (dataset : Dataset) (indices_to_remove : List Nat) :
    Option Dataset :=
  match cleanup_target_names (keptT1 dataset indices_to_remove)
          dataset.target1_names,
        cleanup_target_names_opt (keptT2 dataset indices_to_remove)
          dataset.target2_names with
  | some (t1, n1), some (t2, n2) =>
    some { files := (retained_indices dataset indices_to_remove).map
             (fun i => dataset.files.getD i ""),
           data := (retained_indices dataset indices_to_remove).map
             (fun i => dataset.data.getD i ""),
           target1 := t1,
           target2 := t2.map some,
           target1_names := n1, target2_names := n2 }
  | _, _ => none

/-- `filter_incomplete_subjects(dataset)`: remove every record whose `target2`
is the absent marker. -/
def filter_incomplete_subjects (dataset : Dataset) : Option Dataset :=
  remove_indices dataset
    ((List.range dataset.files.length).filter
      (fun i => decide (dataset.target2.getD i none = none)))

/-- One step of building the `support` dictionary: `support[target].append
(index)`, creating the key at the end on first occurrence (Python dicts keep
insertion order). -/
def addToGroups (groups : List (Option Nat × List Nat)) (t : Option Nat)
    (i : Nat) : List (Option Nat × List Nat) :=
  match groups with
  | [] => [(t, [i])]
  | (k, l) :: rest =>
    if k = t then (k, l ++ [i]) :: rest else (k, l) :: addToGroups rest t i

/-- The `support` dictionary of `filter_small_subjects` and
`chop_large_subjects` after processing indices `0, ..., k-1`. -/
def buildGroups (target2 : List (Option Nat)) (k : Nat) :
    List (Option Nat × List Nat) :=
  (List.range k).foldl (fun gs i => addToGroups gs (target2.getD i none) i) []

/-- The full `support` dictionary: record indices grouped by `target2` value,
keys in first-occurrence order, each group in increasing index order. -/
def supportGroups (target2 : List (Option Nat)) :
    List (Option Nat × List Nat) :=
  buildGroups target2 target2.length

/-- The `indices` list of `filter_small_subjects`: all members of every
`target2` group with fewer than `min_support` members. -/
def smallRemoved (target2 : List (Option Nat)) (min_support : Nat) :
    List Nat :=
  (supportGroups target2).foldl
    (fun acc g => if g.2.length < min_support then acc ++ g.2 else acc) []

/-- `filter_small_subjects(dataset, min_support)`: drop every record whose
`target2` group has fewer than `min_support` members. -/
def filter_small_subjects (dataset : Dataset) (min_support : Nat) :
    Option Dataset :=
  remove_indices dataset (smallRemoved dataset.target2 min_support)

/-- The `indices` list of `chop_large_subjects`: the members beyond the first
`max_documents` of every `target2` group with more than `max_documents`
members (`support[target][max_documents:]`). -/
def chopRemoved (target2 : List (Option Nat)) (max_documents : Nat) :
    List Nat :=
  (supportGroups target2).foldl
    (fun acc g =>
      if max_documents < g.2.length then acc ++ g.2.drop max_documents
      else acc) []

/-- `chop_large_subjects(dataset, max_documents)`: in every `target2` group
with more than `max_documents` members, drop all but the first
`max_documents` records. -/
def chop_large_subjects (dataset : Dataset) (max_documents : Nat) :
    Option Dataset :=
  remove_indices dataset (chopRemoved dataset.target2 max_documents)

/-- `mapping[target1_name][target2_name].append(index)` on the inner
insertion-ordered dictionary. -/
def addInner (inner : List (String × List Nat)) (n2 : String) (i : Nat) :
    List (String × List Nat) :=
  match inner with
  | [] => [(n2, [i])]
  | (k, l) :: rest =>
    if k = n2 then (k, l ++ [i]) :: rest else (k, l) :: addInner rest n2 i

/-- One `get_indices` loop step on the outer insertion-ordered dictionary. -/
def addOuter (mapping : List (String × List (String × List Nat)))
    (n1 n2 : String) (i : Nat) : List (String × List (String × List Nat)) :=
  match mapping with
  | [] => [(n1, [(n2, [i])])]
  | (k, inner) :: rest =>
    if k = n1 then (k, addInner inner n2 i) :: rest
    else (k, inner) :: addOuter rest n1 n2 i

/-- `get_indices(dataset)`: the nested `target1_name` to `target2_name` to
index-list mapping.  A `none` result models the exception raised when a
lookup is out of bounds or when `target2_names` is indexed with the absent
marker (`dataset.target2[index]` being `None`). -/
def get_indices (dataset : Dataset) :
    Option (List (String × List (String × List Nat))) :=
  (List.range dataset.target2.length).foldlM
    (fun mapping i => do
      let t1 ← dataset.target1.get? i
      let n1 ← dataset.target1_names.get? t1
      let t2o ← dataset.target2.get? i
      let t2 ← t2o
      let n2 ← dataset.target2_names.get? t2
      pure (addOuter mapping n1 n2 i))
    []

/-- `shuffle_dataset(dataset, seed)`.  The `index_shuffle` argument is the
result of `shuffle(np.arange(0, len(dataset.target1)))`: the permutation of
`0, ..., n-1` produced by the (external, seed-deterministic) `random` module.
The records are emitted in that order; both name tables are taken over
unchanged. -/
def shuffle_dataset (dataset : Dataset) (index_shuffle : List Nat) : Dataset :=
  { files := index_shuffle.map (fun i => dataset.files.getD i ""),
    data := index_shuffle.map (fun i => dataset.data.getD i ""),
    target1 := index_shuffle.map (fun i => dataset.target1.getD i 0),
    target2 := index_shuffle.map (fun i => dataset.target2.getD i none),
    target1_names := dataset.target1_names,
    target2_names := dataset.target2_names }

/-- The record tuples `(files[i], data[i], target1[i], target2[i])` of a
dataset, in record order. -/
def records (d : Dataset) : List (String × String × Nat × Option Nat) :=
  d.files.zip (d.data.zip (d.target1.zip d.target2))

/-- The retained `target2` values with the `some` constructors removed
(meaningful when none of them is absent). -/
def keptT2v (dataset : Dataset) (indices_to_remove : List Nat) : List Nat :=
  (keptT2 dataset indices_to_remove).map (fun t => t.getD 0)

/-- The explicit value of a successful `remove_indices` run: retained records
in increasing index order, both target sequences renumbered through the
sorted list of surviving label indices, both name tables compacted to the
surviving names. -/
def removeResult (dataset : Dataset) (indices_to_remove : List Nat) :
    Dataset :=
  { files := (retained_indices dataset indices_to_remove).map
      (fun i => dataset.files.getD i ""),
    data := (retained_indices dataset indices_to_remove).map
      (fun i => dataset.data.getD i ""),
    target1 := (keptT1 dataset indices_to_remove).map
      (fun t => (pySetList (keptT1 dataset indices_to_remove)).indexOf t),
    target2 := ((keptT2v dataset indices_to_remove).map
      (fun t => (pySetList (keptT2v dataset indices_to_remove)).indexOf t)).map
        some,
    target1_names := (pySetList (keptT1 dataset indices_to_remove)).map
      (fun t => dataset.target1_names.getD t ""),
    target2_names := (pySetList (keptT2v dataset indices_to_remove)).map
      (fun t => dataset.target2_names.getD t "") }

/-- The group of record indices sharing the `target2` value `v`, in
increasing order. -/
def groupIdx (target2 : List (Option Nat)) (v : Option Nat) : List Nat :=
  (List.range target2.length).filter
    (fun i => decide (target2.getD i none = v))

/-- Insertion-ordered dictionary lookup for the `support` groups. -/
def lookupGroup (v : Option Nat) :
    List (Option Nat × List Nat) → Option (List Nat)
  | [] => none
  | (k, l) :: rest => if k = v then some l else lookupGroup v rest

/-- A dataset with a single record whose second-level label is absent; it
satisfies every structural invariant. -/
def dAbsent : Dataset :=
  { files := ["a"], data := ["x"], target1 := [0], target2 := [none],
    target1_names := ["A"], target2_names := [] }

/-- A two-record dataset satisfying the invariants in which one record's
second-level label is absent. -/
def dAbsent2 : Dataset :=
  { files := ["a", "b"], data := ["x", "y"], target1 := [0, 0],
    target2 := [some 0, none], target1_names := ["A"],
    target2_names := ["B"] }

/-- A small complete dataset (every `target2` present) satisfying the
structural invariants, used to instantiate the universally quantified
theorems. -/
def dSample : Dataset :=
  { files := ["a", "b", "c"], data := ["x", "y", "z"], target1 := [0, 1, 0],
    target2 := [some 1, some 0, some 1],
    target1_names := ["A", "B"], target2_names := ["C", "D"] }

/-- The value of `remove_indices dSample [1]`. -/
def dSampleRemoved : Dataset :=
  { files := ["a", "c"], data := ["x", "z"], target1 := [0, 0],
    target2 := [some 0, some 0], target1_names := ["A"],
    target2_names := ["D"] }

/-- A well-formed document whose single subject element carries the text
`"Civil Law; Contracts"`. -/
def docCivil : XmlNode :=
  .mk "root" none [.mk subjectTag (some "Civil Law; Contracts") []]

/-- A well-formed document containing an empty subject element
(`Element.text` is `None`). -/
def docEmptySubject : XmlNode :=
  .mk "root" none [.mk subjectTag none []]

/-- A well-formed document with one subject element whose text holds a single
label. -/
def docSingle : XmlNode :=
  .mk "root" (some "body") [.mk subjectTag (some "Tax Law") []]

/-- A concrete seed-to-permutation function (reversal), standing in for the
external random module when instantiating the shuffle theorem. -/
def revPerm : Option Nat → Nat → List Nat :=
  fun _ n => (List.range n).reverse

/-! ### Generic list lemmas -/

lemma map_getD_range {α : Type} (l : List α) (d : α) :
    (List.range l.length).map (fun i => l.getD i d) = l := by
  induction l with
  | nil => rfl
  | cons a t ih =>
    rw [List.length_cons, List.range_succ_eq_map, List.map_cons, List.map_map]
    have hc : ((fun i => (a :: t).getD i d) ∘ Nat.succ) =
        fun i => t.getD i d := by
      funext i
      simp [Function.comp, Nat.succ_eq_add_one, List.getD_cons_succ]
    rw [List.getD_cons_zero, hc, ih]

lemma foldl_append_flatMap {α β : Type} (f : α → List β) (l : List α)
    (init : List β) :
    l.foldl (fun acc a => acc ++ f a) init = init ++ l.flatMap f := by
  induction l generalizing init with
  | nil => simp
  | cons a t ih => simp [ih, List.append_assoc]

/-! ### Lemmas about the `list(set(...))` model -/

lemma mem_pySetList {t : Nat} {l : List Nat} : t ∈ pySetList l ↔ t ∈ l := by
  unfold pySetList
  rw [(List.perm_insertionSort _ _).mem_iff, List.mem_dedup]

lemma nodup_pySetList (l : List Nat) : (pySetList l).Nodup :=
  (List.perm_insertionSort _ _).nodup_iff.mpr (List.nodup_dedup l)

lemma sorted_pySetList (l : List Nat) : (pySetList l).Sorted (· ≤ ·) :=
  List.sorted_insertionSort _ _

lemma pySetList_eq_range {l : List Nat} {n : Nat}
    (hub : ∀ t ∈ l, t < n) (hall : ∀ j, j < n → j ∈ l) :
    pySetList l = List.range n := by
  refine List.eq_of_perm_of_sorted ?_ (sorted_pySetList l)
    (List.sorted_le_range n)
  rw [List.perm_ext_iff_of_nodup (nodup_pySetList l) (List.nodup_range n)]
  intro a
  rw [mem_pySetList, List.mem_range]
  exact ⟨fun h => hub a h, fun h => hall a h⟩

lemma getD_indexOf {l : List Nat} {t : Nat} (h : t ∈ l) (d : Nat) :
    l.getD (l.indexOf t) d = t := by
  have hlt := List.indexOf_lt_length.mpr h
  rw [List.getD_eq_getElem _ _ hlt]
  exact List.getElem_indexOf hlt

lemma indexOf_getD {l : List Nat} (hnd : l.Nodup) {j : Nat}
    (hj : j < l.length) (d : Nat) :
    l.indexOf (l.getD j d) = j := by
  rw [List.getD_eq_getElem _ _ hj]
  exact List.indexOf_getElem hnd j hj

lemma indexOf_range {t n : Nat} (h : t < n) :
    (List.range n).indexOf t = t := by
  have h' : t < (List.range n).length := by simpa using h
  have hg := indexOf_getD (List.nodup_range n) h' 0
  rwa [List.getD_eq_getElem _ _ h', List.getElem_range] at hg

/-! ### Characterization of the name-table comprehension and of
`cleanup_target_names` -/

lemma pyIndexList_eq_some_iff (names : List String) (ts : List Nat)
    (r : List String) :
    pyIndexList names ts = some r ↔
      (∀ t ∈ ts, t < names.length) ∧
        r = ts.map (fun t => names.getD t "") := by
  induction ts generalizing r with
  | nil => simp [pyIndexList, eq_comm]
  | cons t ts ih =>
    rw [pyIndexList]
    cases hg : names.get? t with
    | none =>
      have hlen : ¬ t < names.length := by
        rw [List.get?_eq_getElem?] at hg
        simp [List.getElem?_eq_none_iff] at hg
        omega
      constructor
      · intro h
        cases hr : pyIndexList names ts <;> rw [hr] at h <;> simp at h
      · rintro ⟨hb, -⟩
        exact absurd (hb t (by simp)) hlen
    | some name =>
      have hlt : t < names.length := by
        rw [List.get?_eq_getElem?, List.getElem?_eq_some_iff] at hg
        exact hg.1
      cases hr : pyIndexList names ts with
      | none =>
        constructor
        · intro h; simp at h
        · rintro ⟨hb, -⟩
          have := (ih (ts.map (fun t => names.getD t ""))).mpr
            ⟨fun x hx => hb x (by simp [hx]), rfl⟩
          rw [hr] at this
          exact absurd this (by simp)
      | some rs =>
        obtain ⟨hb, rfl⟩ := (ih rs).mp hr
        have hname : name = names.getD t "" := by
          rw [List.get?_eq_getElem?, List.getElem?_eq_some_iff] at hg
          rw [List.getD_eq_getElem _ _ hlt, hg.2]
        constructor
        · intro h
          simp only [Option.some.injEq] at h
          subst h
          refine ⟨?_, by simp [hname]⟩
          intro x hx
          rcases List.mem_cons.mp hx with rfl | hx
          · exact hlt
          · exact hb x hx
        · rintro ⟨-, rfl⟩
          simp [hname]

lemma cleanup_eq_some_iff (targets : List Nat) (names : List String)
    (p : List Nat × List String) :
    cleanup_target_names targets names = some p ↔
      (∀ t ∈ targets, t < names.length) ∧
        p = (targets.map (fun t => (pySetList targets).indexOf t),
             (pySetList targets).map (fun t => names.getD t "")) := by
  unfold cleanup_target_names
  cases hr : pyIndexList names (pySetList targets) with
  | none =>
    constructor
    · intro h; simp at h
    · rintro ⟨hb, -⟩
      have hsome := (pyIndexList_eq_some_iff names (pySetList targets)
        ((pySetList targets).map (fun t => names.getD t ""))).mpr
        ⟨fun x hx => hb x (mem_pySetList.mp hx), rfl⟩
      rw [hr] at hsome
      exact absurd hsome (by simp)
  | some rs =>
    obtain ⟨hb, rfl⟩ := (pyIndexList_eq_some_iff _ _ _).mp hr
    constructor
    · intro h
      simp only [Option.some.injEq] at h
      subst h
      exact ⟨fun t ht => hb t (mem_pySetList.mpr ht), rfl⟩
    · rintro ⟨-, rfl⟩
      rfl

lemma cleanup_opt_eq_some_iff (targets : List (Option Nat))
    (names : List String) (p : List Nat × List String) :
    cleanup_target_names_opt targets names = some p ↔
      (∀ t ∈ targets, t.isSome) ∧
        cleanup_target_names (targets.map (fun t => t.getD 0)) names =
          some p := by
  unfold cleanup_target_names_opt
  by_cases hall : ∀ t ∈ targets, t.isSome = true
  · rw [if_pos (List.all_eq_true.mpr hall)]
    exact ⟨fun h => ⟨hall, h⟩, fun h => h.2⟩
  · rw [if_neg (fun hc => hall (List.all_eq_true.mp hc))]
    simp [hall]

/-! ### Lemmas about the retained index list -/

lemma mem_retained {d : Dataset} {S : List Nat} {i : Nat} :
    i ∈ retained_indices d S ↔ i < d.files.length ∧ i ∉ S := by
  unfold retained_indices
  simp [List.mem_filter]

lemma nodup_retained (d : Dataset) (S : List Nat) :
    (retained_indices d S).Nodup :=
  (List.nodup_range _).filter _

lemma sorted_retained (d : Dataset) (S : List Nat) :
    (retained_indices d S).Sorted (· < ·) :=
  List.Sorted.filter _ (List.sorted_lt_range _)

/-! ### Bounds on the retained label values, derived from the invariants -/

lemma keptT1_bounds {d : Dataset} (hinv : invariants d) (S : List Nat) :
    ∀ t ∈ keptT1 d S, t < d.target1_names.length := by
  intro t ht
  unfold keptT1 at ht
  rw [List.mem_map] at ht
  obtain ⟨i, hi, rfl⟩ := ht
  rw [mem_retained] at hi
  obtain ⟨hif, -⟩ := hi
  obtain ⟨⟨e1, e2, e3⟩, hb1, -⟩ := hinv
  have hlen : i < d.target1.length := by omega
  rw [List.getD_eq_getElem _ _ hlen]
  exact hb1 _ (List.mem_iff_getElem.mpr ⟨i, hlen, rfl⟩)

lemma keptT2v_bounds {d : Dataset} (hinv : invariants d) (S : List Nat)
    (hp : ∀ t ∈ keptT2 d S, t.isSome = true) :
    ∀ t ∈ keptT2v d S, t < d.target2_names.length := by
  intro t ht
  unfold keptT2v at ht
  rw [List.mem_map] at ht
  obtain ⟨o, ho, rfl⟩ := ht
  have hs := hp o ho
  unfold keptT2 at ho
  rw [List.mem_map] at ho
  obtain ⟨i, hi, rfl⟩ := ho
  rw [mem_retained] at hi
  obtain ⟨hif, -⟩ := hi
  obtain ⟨⟨e1, e2, e3⟩, -, hb2, -⟩ := hinv
  have hlen : i < d.target2.length := by omega
  rw [List.getD_eq_getElem _ _ hlen] at hs ⊢
  obtain ⟨k, hk⟩ := Option.isSome_iff_exists.mp hs
  rw [hk, Option.getD_some]
  exact hb2 _ (List.mem_iff_getElem.mpr ⟨i, hlen, rfl⟩) k hk

/-! ### The master description of `remove_indices` -/

lemma remove_indices_eq_some {d : Dataset} {S : List Nat}
    (h1 : ∀ t ∈ keptT1 d S, t < d.target1_names.length)
    (h2 : ∀ t ∈ keptT2v d S, t < d.target2_names.length)
    (hp : ∀ t ∈ keptT2 d S, t.isSome = true) :
    remove_indices d S = some (removeResult d S) := by
  have e1 : cleanup_target_names (keptT1 d S) d.target1_names =
      some ((keptT1 d S).map (fun t => (pySetList (keptT1 d S)).indexOf t),
        (pySetList (keptT1 d S)).map (fun t => d.target1_names.getD t "")) :=
    (cleanup_eq_some_iff _ _ _).mpr ⟨h1, rfl⟩
  have e2 : cleanup_target_names_opt (keptT2 d S) d.target2_names =
      some (((keptT2 d S).map (fun t => t.getD 0)).map
              (fun t => (pySetList ((keptT2 d S).map
                (fun t => t.getD 0))).indexOf t),
            (pySetList ((keptT2 d S).map (fun t => t.getD 0))).map
              (fun t => d.target2_names.getD t "")) := by
    refine (cleanup_opt_eq_some_iff _ _ _).mpr
      ⟨hp, (cleanup_eq_some_iff _ _ _).mpr ⟨?_, rfl⟩⟩
    intro t ht
    exact h2 t ht
  unfold remove_indices
  rw [e1, e2]
  rfl

lemma remove_indices_some_inv {d : Dataset} {S : List Nat} {D' : Dataset}
    (h : remove_indices d S = some D') :
    (∀ t ∈ keptT2 d S, t.isSome = true) ∧ D' = removeResult d S := by
  unfold remove_indices at h
  revert h
  cases e1 : cleanup_target_names (keptT1 d S) d.target1_names with
  | none => intro h; simp at h
  | some p1 =>
    obtain ⟨t1, n1⟩ := p1
    cases e2 : cleanup_target_names_opt (keptT2 d S) d.target2_names with
    | none => intro h; simp at h
    | some p2 =>
      obtain ⟨t2, n2⟩ := p2
      intro h
      simp only [Option.some.injEq] at h
      obtain ⟨hb1, hp1⟩ := (cleanup_eq_some_iff _ _ _).mp e1
      obtain ⟨hall, hc2⟩ := (cleanup_opt_eq_some_iff _ _ _).mp e2
      obtain ⟨hb2, hp2⟩ := (cleanup_eq_some_iff _ _ _).mp hc2
      rw [Prod.mk.injEq] at hp1 hp2
      obtain ⟨rfl, rfl⟩ := hp1
      obtain ⟨rfl, rfl⟩ := hp2
      refine ⟨hall, ?_⟩
      rw [← h]
      rfl

lemma getD_map_lt {α β : Type} {f : α → β} {l : List α} {p : Nat}
    (h : p < l.length) (d : α) (d' : β) :
    (l.map f).getD p d' = f (l.getD p d) := by
  rw [List.getD_eq_getElem _ _ (by simpa using h), List.getD_eq_getElem _ _ h,
    List.getElem_map]

lemma mem_map_indexOf_of_lt {l : List Nat} {j : Nat}
    (hj : j < (pySetList l).length) :
    j ∈ l.map (fun t => (pySetList l).indexOf t) := by
  have hmem0 : (pySetList l).getD j 0 ∈ pySetList l := by
    rw [List.getD_eq_getElem _ _ hj]
    exact List.mem_iff_getElem.mpr ⟨j, hj, rfl⟩
  rw [List.mem_map]
  exact ⟨_, mem_pySetList.mp hmem0, indexOf_getD (nodup_pySetList l) hj 0⟩

lemma retained_nil (d : Dataset) :
    retained_indices d [] = List.range d.files.length := by
  unfold retained_indices
  rw [List.filter_eq_self]
  intro a _
  simp

/-! ### Claim theorems -/

/-- C1 (code_bug).  The spec requires `remove_indices` to preserve the absent
marker in `target2` and never treat it as a label during name-table
compaction.  The code instead passes the marker into `cleanup_target_names`,
where `list(target_names)[None]` raises `TypeError`: on the invariant-
satisfying dataset `dAbsent` (one record with absent `target2`), removing the
empty index set raises instead of returning a dataset. -/
theorem c1_absent_marker_crash :
    invariants dAbsent ∧ remove_indices dAbsent [] = none := by
  constructor
  · decide
  · decide

/-- C2 counterexample.  On the invariant-satisfying dataset `dAbsent2` (one
retained record has an absent `target2`), `remove_indices` with the empty
removal set raises (returns no dataset at all), so it does not yield a
dataset with equal-length sequences and orphan-free name tables. -/
theorem c2_counterexample :
    invariants dAbsent2 ∧ remove_indices dAbsent2 [] = none := by
  constructor
  · decide
  · decide

/-- C2 (amended).  For every dataset satisfying the structural invariants and
every index set such that no retained record has an absent `target2`,
`remove_indices` succeeds and yields a dataset whose four parallel sequences
have equal lengths and whose name tables contain no entry unreferenced by a
retained record (invariant 4 restored). -/
theorem c2_remove_restores_invariants (d : Dataset) (S : List Nat)
    (hinv : invariants d)
    (hp : ∀ t ∈ keptT2 d S, t.isSome = true) :
    ∃ D', remove_indices d S = some D' ∧
      (D'.files.length = D'.data.length ∧
        D'.data.length = D'.target1.length ∧
        D'.target1.length = D'.target2.length) ∧
      (∀ j, j < D'.target1_names.length → j ∈ D'.target1) ∧
      (∀ j, j < D'.target2_names.length → some j ∈ D'.target2) := by
  refine ⟨removeResult d S,
    remove_indices_eq_some (keptT1_bounds hinv S)
      (keptT2v_bounds hinv S hp) hp, ?_, ?_, ?_⟩
  · unfold removeResult keptT1 keptT2v keptT2
    simp
  · intro j hj
    have hj' : j < (pySetList (keptT1 d S)).length := by
      simpa [removeResult] using hj
    show j ∈ (keptT1 d S).map (fun t => (pySetList (keptT1 d S)).indexOf t)
    exact mem_map_indexOf_of_lt hj'
  · intro j hj
    have hj' : j < (pySetList (keptT2v d S)).length := by
      simpa [removeResult] using hj
    show some j ∈ ((keptT2v d S).map
      (fun t => (pySetList (keptT2v d S)).indexOf t)).map some
    have hmem := mem_map_indexOf_of_lt hj'
    rw [List.mem_map]
    exact ⟨j, hmem, rfl⟩

/-- C2 witness: the amended theorem instantiated at the complete dataset
`dSample` with removal set `[1]`. -/
theorem c2_witness :
    ∃ D', remove_indices dSample [1] = some D' ∧
      (D'.files.length = D'.data.length ∧
        D'.data.length = D'.target1.length ∧
        D'.target1.length = D'.target2.length) ∧
      (∀ j, j < D'.target1_names.length → j ∈ D'.target1) ∧
      (∀ j, j < D'.target2_names.length → some j ∈ D'.target2) :=
  c2_remove_restores_invariants dSample [1] (by decide) (by decide)

/-- C5 counterexample.  On the invariant-satisfying dataset `dAbsent`,
removing the empty index set is not a no-op: the call raises (yields no
dataset) instead of returning the input dataset. -/
theorem c5_counterexample :
    invariants dAbsent ∧ remove_indices dAbsent [] ≠ some dAbsent := by
  constructor
  · decide
  · decide

/-- C5 (amended).  For every dataset satisfying the structural invariants in
which every record's `target2` is present, `remove_indices` with the empty
index set returns the input dataset unchanged: records identical and both
name tables and all index values unchanged. -/
theorem c5_empty_removal_noop (d : Dataset) (hinv : invariants d)
    (hc : ∀ t ∈ d.target2, t.isSome = true) :
    remove_indices d [] = some d := by
  have hrn := retained_nil d
  have hk1 : keptT1 d [] = d.target1 := by
    unfold keptT1
    rw [hrn, hinv.1.1, hinv.1.2.1]
    exact map_getD_range d.target1 0
  have hk2 : keptT2 d [] = d.target2 := by
    unfold keptT2
    rw [hrn, hinv.1.1, hinv.1.2.1, hinv.1.2.2]
    exact map_getD_range d.target2 none
  have hk2v : keptT2v d [] = d.target2.map (fun t => t.getD 0) := by
    unfold keptT2v
    rw [hk2]
  have hp : ∀ t ∈ keptT2 d [], t.isSome = true := by
    rw [hk2]; exact hc
  have hu1 : pySetList (keptT1 d []) = List.range d.target1_names.length := by
    rw [hk1]
    exact pySetList_eq_range hinv.2.1 hinv.2.2.2.2.1
  have hv2b : ∀ k ∈ d.target2.map (fun t => t.getD 0),
      k < d.target2_names.length := by
    intro k hkm
    rw [List.mem_map] at hkm
    obtain ⟨o, ho, rfl⟩ := hkm
    obtain ⟨k', hk'⟩ := Option.isSome_iff_exists.mp (hc o ho)
    rw [hk', Option.getD_some]
    exact hinv.2.2.1 o ho k' hk'
  have hv2a : ∀ j, j < d.target2_names.length →
      j ∈ d.target2.map (fun t => t.getD 0) := by
    intro j hj
    rw [List.mem_map]
    exact ⟨some j, hinv.2.2.2.2.2 j hj, rfl⟩
  have hu2 : pySetList (keptT2v d []) = List.range d.target2_names.length := by
    rw [hk2v]
    exact pySetList_eq_range hv2b hv2a
  rw [remove_indices_eq_some (keptT1_bounds hinv [])
    (keptT2v_bounds hinv [] hp) hp]
  congr 1
  refine Dataset.ext ?_ ?_ ?_ ?_ ?_ ?_
  · show (retained_indices d []).map (fun i => d.files.getD i "") = d.files
    rw [hrn]
    exact map_getD_range d.files ""
  · show (retained_indices d []).map (fun i => d.data.getD i "") = d.data
    rw [hrn, hinv.1.1]
    exact map_getD_range d.data ""
  · show (keptT1 d []).map
        (fun t => (pySetList (keptT1 d [])).indexOf t) = d.target1
    rw [hu1, hk1]
    calc d.target1.map (fun t =>
            (List.range d.target1_names.length).indexOf t)
        = d.target1.map id := by
          apply List.map_congr_left
          intro t ht
          exact indexOf_range (hinv.2.1 t ht)
      _ = d.target1 := List.map_id d.target1
  · show ((keptT2v d []).map
        (fun t => (pySetList (keptT2v d [])).indexOf t)).map some = d.target2
    rw [hu2, hk2v]
    have hmid : (d.target2.map (fun t => t.getD 0)).map
        (fun t => (List.range d.target2_names.length).indexOf t) =
        d.target2.map (fun t => t.getD 0) := by
      calc (d.target2.map (fun t => t.getD 0)).map
              (fun t => (List.range d.target2_names.length).indexOf t)
          = (d.target2.map (fun t => t.getD 0)).map id := by
            apply List.map_congr_left
            intro t ht
            exact indexOf_range (hv2b t ht)
        _ = d.target2.map (fun t => t.getD 0) :=
            List.map_id (d.target2.map (fun t => t.getD 0))
    rw [hmid, List.map_map]
    calc d.target2.map (some ∘ fun t => t.getD 0)
        = d.target2.map id := by
          apply List.map_congr_left
          intro o ho
          obtain ⟨k, hk⟩ := Option.isSome_iff_exists.mp (hc o ho)
          simp [hk, Function.comp]
      _ = d.target2 := List.map_id d.target2
  · show (pySetList (keptT1 d [])).map
        (fun t => d.target1_names.getD t "") = d.target1_names
    rw [hu1]
    exact map_getD_range d.target1_names ""
  · show (pySetList (keptT2v d [])).map
        (fun t => d.target2_names.getD t "") = d.target2_names
    rw [hu2]
    exact map_getD_range d.target2_names ""

/-- C5 witness: the amended theorem instantiated at the complete dataset
`dSample`. -/
theorem c5_witness : remove_indices dSample [] = some dSample :=
  c5_empty_removal_noop dSample (by decide) (by decide)

lemma getD_mem {α : Type} {l : List α} {p : Nat} (h : p < l.length) (d : α) :
    l.getD p d ∈ l := by
  rw [List.getD_eq_getElem _ _ h]
  exact List.mem_iff_getElem.mpr ⟨p, h, rfl⟩

/-- C3 (confirmed).  Whenever `remove_indices` returns a dataset, the
renumbering performed through `cleanup_target_names` is self-consistent: two
retained records with equal original label values receive equal new values
(for `target1` and for `target2`), and each retained record's new index
resolves in the compacted name table to the same name string its old index
resolved to in the old table. -/
theorem c3_renumbering_self_consistent (d : Dataset) (S : List Nat)
    (D' : Dataset) (hinv : invariants d)
    (hrun : remove_indices d S = some D') :
    (∀ p q, p < (retained_indices d S).length →
        q < (retained_indices d S).length →
        ((keptT1 d S).getD p 0 = (keptT1 d S).getD q 0 →
          D'.target1.getD p 0 = D'.target1.getD q 0) ∧
        ((keptT2 d S).getD p none = (keptT2 d S).getD q none →
          D'.target2.getD p none = D'.target2.getD q none)) ∧
    (∀ p, p < (retained_indices d S).length →
        D'.target1_names.getD (D'.target1.getD p 0) "" =
          d.target1_names.getD ((keptT1 d S).getD p 0) "" ∧
        ∀ k, (keptT2 d S).getD p none = some k →
          ∃ j, D'.target2.getD p none = some j ∧
            D'.target2_names.getD j "" = d.target2_names.getD k "") := by
  obtain ⟨hall, rfl⟩ := remove_indices_some_inv hrun
  have hlk1 : (keptT1 d S).length = (retained_indices d S).length := by
    unfold keptT1
    rw [List.length_map]
  have hlk2 : (keptT2 d S).length = (retained_indices d S).length := by
    unfold keptT2
    rw [List.length_map]
  have hlk2v : (keptT2v d S).length = (retained_indices d S).length := by
    unfold keptT2v
    rw [List.length_map, hlk2]
  have ht1 : ∀ p, p < (retained_indices d S).length →
      (removeResult d S).target1.getD p 0 =
        (pySetList (keptT1 d S)).indexOf ((keptT1 d S).getD p 0) := by
    intro p hp
    show ((keptT1 d S).map
      (fun t => (pySetList (keptT1 d S)).indexOf t)).getD p 0 = _
    exact getD_map_lt (by omega) 0 0
  have ht2 : ∀ p, p < (retained_indices d S).length →
      (removeResult d S).target2.getD p none =
        some ((pySetList (keptT2v d S)).indexOf
          (((keptT2 d S).getD p none).getD 0)) := by
    intro p hp
    show (((keptT2v d S).map
      (fun t => (pySetList (keptT2v d S)).indexOf t)).map some).getD p none = _
    rw [getD_map_lt (by rw [List.length_map]; omega) 0 none,
      getD_map_lt (by omega) 0 0]
    congr 2
    show (keptT2v d S).getD p 0 = _
    unfold keptT2v
    exact getD_map_lt (by omega) none 0
  constructor
  · intro p q hp hq
    constructor
    · intro he
      rw [ht1 p hp, ht1 q hq, he]
    · intro he
      rw [ht2 p hp, ht2 q hq, he]
  · intro p hp
    constructor
    · rw [ht1 p hp]
      have htm : (keptT1 d S).getD p 0 ∈ pySetList (keptT1 d S) :=
        mem_pySetList.mpr (getD_mem (by omega) 0)
      have hidx := List.indexOf_lt_length.mpr htm
      show ((pySetList (keptT1 d S)).map
        (fun t => d.target1_names.getD t "")).getD _ "" = _
      rw [getD_map_lt hidx 0 "", getD_indexOf htm 0]
    · intro k hk
      have hkv : (keptT2v d S).getD p 0 = k := by
        unfold keptT2v
        rw [getD_map_lt (by omega) none 0, hk, Option.getD_some]
      have hkm : k ∈ pySetList (keptT2v d S) := by
        rw [← hkv]
        exact mem_pySetList.mpr (getD_mem (by omega) 0)
      have hidx := List.indexOf_lt_length.mpr hkm
      refine ⟨(pySetList (keptT2v d S)).indexOf k, ?_, ?_⟩
      · rw [ht2 p hp, hk, Option.getD_some]
      · show ((pySetList (keptT2v d S)).map
          (fun t => d.target2_names.getD t "")).getD _ "" = _
        rw [getD_map_lt hidx 0 "", getD_indexOf hkm 0]

/-- C3 witness: the theorem instantiated at `dSample` with removal set `[1]`,
whose `remove_indices` output is `dSampleRemoved`. -/
theorem c3_witness :
    (∀ p q, p < (retained_indices dSample [1]).length →
        q < (retained_indices dSample [1]).length →
        ((keptT1 dSample [1]).getD p 0 = (keptT1 dSample [1]).getD q 0 →
          dSampleRemoved.target1.getD p 0 =
            dSampleRemoved.target1.getD q 0) ∧
        ((keptT2 dSample [1]).getD p none =
            (keptT2 dSample [1]).getD q none →
          dSampleRemoved.target2.getD p none =
            dSampleRemoved.target2.getD q none)) ∧
    (∀ p, p < (retained_indices dSample [1]).length →
        dSampleRemoved.target1_names.getD
            (dSampleRemoved.target1.getD p 0) "" =
          dSample.target1_names.getD ((keptT1 dSample [1]).getD p 0) "" ∧
        ∀ k, (keptT2 dSample [1]).getD p none = some k →
          ∃ j, dSampleRemoved.target2.getD p none = some j ∧
            dSampleRemoved.target2_names.getD j "" =
              dSample.target2_names.getD k "") :=
  c3_renumbering_self_consistent dSample [1] dSampleRemoved
    (by decide) (by decide)

lemma records_eq_map_range (d : Dataset) (hinv : invariants d) :
    records d = (List.range d.target1.length).map
      (fun i => (d.files.getD i "", d.data.getD i "",
        d.target1.getD i 0, d.target2.getD i none)) := by
  obtain ⟨f, dt, t1, t2, n1, n2⟩ := d
  unfold invariants at hinv
  obtain ⟨⟨e1, e2, e3⟩, -⟩ := hinv
  show f.zip (dt.zip (t1.zip t2)) = (List.range t1.length).map
    (fun i => (f.getD i "", dt.getD i "", t1.getD i 0, t2.getD i none))
  simp only [List.length_cons] at e1 e2 e3
  generalize hgen : t1.length = n
  have ef : f = (List.range n).map (fun i => f.getD i "") := by
    conv_lhs => rw [← map_getD_range f ""]
    rw [show f.length = n by omega]
  have ed : dt = (List.range n).map (fun i => dt.getD i "") := by
    conv_lhs => rw [← map_getD_range dt ""]
    rw [show dt.length = n by omega]
  have et1 : t1 = (List.range n).map (fun i => t1.getD i 0) := by
    conv_lhs => rw [← map_getD_range t1 0]
    rw [hgen]
  have et2 : t2 = (List.range n).map (fun i => t2.getD i none) := by
    conv_lhs => rw [← map_getD_range t2 none]
    rw [show t2.length = n by omega]
  conv_lhs => rw [ef, ed, et1, et2]
  rw [List.zip_map', List.zip_map', List.zip_map']

/-- C8 (confirmed).  Modelling the external `random` module as a function
from the optional seed and the length to the shuffled index list (which the
Fisher-Yates shuffle of `np.arange` guarantees to be a permutation of
`0, ..., n-1`, and which is a fixed value for a fixed seed), `shuffle_dataset`
permutes the record tuples (same multiset of `(file, data, target1, target2)`
tuples), leaves both name tables unchanged in entry and order, and is
deterministic: the same input dataset and the same seed give the identical
output. -/
theorem c8_shuffle_perm (rngPerm : Option Nat → Nat → List Nat)
    (hperm : ∀ s n, (rngPerm s n).Perm (List.range n))
    (seed : Option Nat) (d : Dataset) (hinv : invariants d) :
    (records (shuffle_dataset d (rngPerm seed d.target1.length))).Perm
        (records d) ∧
    (shuffle_dataset d (rngPerm seed d.target1.length)).target1_names =
      d.target1_names ∧
    (shuffle_dataset d (rngPerm seed d.target1.length)).target2_names =
      d.target2_names ∧
    ∀ d2 s2, d2 = d → s2 = seed →
      shuffle_dataset d2 (rngPerm s2 d2.target1.length) =
        shuffle_dataset d (rngPerm seed d.target1.length) := by
  refine ⟨?_, rfl, rfl, ?_⟩
  · have h1 : records (shuffle_dataset d (rngPerm seed d.target1.length)) =
        (rngPerm seed d.target1.length).map
          (fun i => (d.files.getD i "", d.data.getD i "",
            d.target1.getD i 0, d.target2.getD i none)) := by
      show ((rngPerm seed d.target1.length).map
          (fun i => d.files.getD i "")).zip
        (((rngPerm seed d.target1.length).map
          (fun i => d.data.getD i "")).zip
        (((rngPerm seed d.target1.length).map
          (fun i => d.target1.getD i 0)).zip
        ((rngPerm seed d.target1.length).map
          (fun i => d.target2.getD i none)))) = _
      rw [List.zip_map', List.zip_map', List.zip_map']
    rw [h1, records_eq_map_range d hinv]
    exact (hperm seed d.target1.length).map _
  · intro d2 s2 h1 h2
    rw [h1, h2]

/-- C8 witness: the theorem instantiated at `dSample` with the reversal
permutation standing in for the seeded random module. -/
theorem c8_witness :
    (records (shuffle_dataset dSample
        (revPerm none dSample.target1.length))).Perm (records dSample) ∧
    (shuffle_dataset dSample
        (revPerm none dSample.target1.length)).target1_names =
      dSample.target1_names ∧
    (shuffle_dataset dSample
        (revPerm none dSample.target1.length)).target2_names =
      dSample.target2_names ∧
    ∀ d2 s2, d2 = dSample → s2 = none →
      shuffle_dataset d2 (revPerm s2 d2.target1.length) =
        shuffle_dataset dSample (revPerm none dSample.target1.length) :=
  c8_shuffle_perm revPerm (fun _ n => List.reverse_perm _) none dSample
    (by decide)

lemma extractSubjectsLoop_isSome (l : List XmlNode) (acc : List String)
    (h : ∀ sn ∈ l, sn.text ≠ none) :
    ∃ subs, extractSubjectsLoop l acc = some subs := by
  induction l generalizing acc with
  | nil => exact ⟨acc, rfl⟩
  | cons sn rest ih =>
    cases hs : sn.text with
    | none => exact absurd hs (h sn (by simp))
    | some t =>
      have hrec := ih (acc ++ pySplitSemi (pySubSemi t))
        (fun x hx => h x (by simp [hx]))
      simpa [extractSubjectsLoop, hs] using hrec

/-- C4 counterexample.  On a well-formed document containing an empty subject
element (`Element.text` is `None`), `extract_subjects` applies `re.sub` to
`None`, raising a `TypeError` that `handle_xml_file` does not catch (only
`xmltree.ParseError` is caught): the claim that `handle_xml_file` never
raises for any input is false. -/
theorem c4_counterexample :
    handle_xml_file emptyDataset "p" (some docEmptySubject) "\n" = none := by
  decide

/-- C4 (amended).  A document that fails to parse as XML is skipped with the
dataset unchanged, and for every parseable document all of whose subject
elements carry text, `handle_xml_file` raises no exception and either appends
exactly one record or leaves the dataset unchanged. -/
theorem c4_skip_or_append (d : Dataset) (path : String) (sep : String)
    (parsed : Option XmlNode)
    (htext : ∀ root, parsed = some root →
      ∀ sn ∈ findallDesc subjectTag root, sn.text ≠ none) :
    ∃ r, handle_xml_file d path parsed sep = some r ∧
      (r = d ∨
        (r.files = d.files ++ [path] ∧
         r.data.length = d.data.length + 1 ∧
         r.target1.length = d.target1.length + 1 ∧
         r.target2.length = d.target2.length + 1)) := by
  cases parsed with
  | none => exact ⟨d, rfl, Or.inl rfl⟩
  | some root =>
    obtain ⟨subs, hsubs⟩ := extractSubjectsLoop_isSome
      (findallDesc subjectTag root) [] (htext root rfl)
    have hsubs' : extract_subjects root = some subs := hsubs
    unfold handle_xml_file
    dsimp only
    rw [hsubs']
    dsimp only
    by_cases hlen : subs.length = 1 ∨ subs.length = 2
    · rw [if_pos hlen]
      by_cases h2 : subs.length = 2
      · rw [if_pos h2]
        refine ⟨_, rfl, Or.inr ?_⟩
        refine ⟨rfl, ?_, ?_, ?_⟩ <;> simp
      · rw [if_neg h2]
        refine ⟨_, rfl, Or.inr ?_⟩
        refine ⟨rfl, ?_, ?_, ?_⟩ <;> simp
    · rw [if_neg hlen]
      exact ⟨d, rfl, Or.inl rfl⟩

/-- C4 witness: the amended theorem instantiated at the empty dataset and the
single-subject document `docSingle`. -/
theorem c4_witness :
    ∃ r, handle_xml_file emptyDataset "p" (some docSingle) "\n" = some r ∧
      (r = emptyDataset ∨
        (r.files = emptyDataset.files ++ ["p"] ∧
         r.data.length = emptyDataset.data.length + 1 ∧
         r.target1.length = emptyDataset.target1.length + 1 ∧
         r.target2.length = emptyDataset.target2.length + 1)) :=
  c4_skip_or_append emptyDataset "p" "\n" (some docSingle)
    (by
      intro root h
      injection h with h
      subst h
      decide)

/-- C9 (confirmed).  Ingesting into the empty dataset a document whose single
subject element's text is the string holding the two labels separated by a
semicolon and a space extracts the two labels (semicolon-split, whitespace
around the semicolon trimmed, in document order) and appends one record with
the expected name tables and indices. -/
theorem c9_end_to_end :
    extract_subjects docCivil = some ["Civil Law", "Contracts"] ∧
    handle_xml_file emptyDataset "path" (some docCivil) "\n" =
      some { files := ["path"], data := ["Civil Law; Contracts"],
             target1 := [0], target2 := [some 0],
             target1_names := ["Civil Law"],
             target2_names := ["Contracts"] } := by
  constructor
  · decide
  · decide

/-! ### The support-group dictionary of the filter and chop operations -/

lemma mem_groupIdx {t2 : List (Option Nat)} {v : Option Nat} {i : Nat} :
    i ∈ groupIdx t2 v ↔ i < t2.length ∧ t2.getD i none = v := by
  unfold groupIdx
  simp [List.mem_filter]

lemma nodup_groupIdx (t2 : List (Option Nat)) (v : Option Nat) :
    (groupIdx t2 v).Nodup :=
  (List.nodup_range _).filter _

lemma lookup_addToGroups (gs : List (Option Nat × List Nat)) (t : Option Nat)
    (i : Nat) (v : Option Nat) :
    lookupGroup v (addToGroups gs t i) =
      if t = v then some ((lookupGroup v gs).getD [] ++ [i])
      else lookupGroup v gs := by
  induction gs with
  | nil =>
    by_cases hv : t = v <;> simp [addToGroups, lookupGroup, hv]
  | cons p rest ih =>
    obtain ⟨k, l⟩ := p
    by_cases hkt : k = t
    · subst hkt
      by_cases hv : k = v <;> simp [addToGroups, lookupGroup, hv]
    · by_cases hkv : k = v
      · subst hkv
        have htv : ¬ t = k := fun h => hkt h.symm
        simp [addToGroups, lookupGroup, hkt, htv]
      · simp [addToGroups, lookupGroup, hkt, hkv, ih]

lemma buildGroups_succ (t2 : List (Option Nat)) (k : Nat) :
    buildGroups t2 (k + 1) =
      addToGroups (buildGroups t2 k) (t2.getD k none) k := by
  unfold buildGroups
  rw [List.range_succ, List.foldl_append]
  rfl

lemma lookup_buildGroups (t2 : List (Option Nat)) (k : Nat) (v : Option Nat) :
    lookupGroup v (buildGroups t2 k) =
      if (List.range k).filter (fun i => decide (t2.getD i none = v)) = []
      then none
      else some ((List.range k).filter
        (fun i => decide (t2.getD i none = v))) := by
  induction k with
  | zero => simp [buildGroups, lookupGroup]
  | succ k ih =>
    rw [buildGroups_succ, lookup_addToGroups, List.range_succ,
      List.filter_append, ih]
    by_cases hv : t2.getD k none = v
    · rw [if_pos hv]
      have hfk : List.filter (fun i => decide (t2.getD i none = v)) [k] =
          [k] := by
        simp only [List.filter_cons, List.filter_nil, decide_eq_true_eq]
        rw [if_pos hv]
      rw [hfk]
      by_cases hemp : (List.range k).filter
          (fun i => decide (t2.getD i none = v)) = []
      · rw [if_pos hemp, hemp]
        simp
      · rw [if_neg hemp]
        simp
    · rw [if_neg hv]
      have hfk : List.filter (fun i => decide (t2.getD i none = v)) [k] =
          [] := by
        simp only [List.filter_cons, List.filter_nil, decide_eq_true_eq]
        rw [if_neg hv]
      rw [hfk, List.append_nil]

lemma keys_addToGroups_mem (gs : List (Option Nat × List Nat))
    (t : Option Nat) (i : Nat) (v : Option Nat) :
    v ∈ (addToGroups gs t i).map Prod.fst ↔
      v ∈ gs.map Prod.fst ∨ v = t := by
  induction gs with
  | nil => simp [addToGroups]
  | cons p rest ih =>
    obtain ⟨k, l⟩ := p
    by_cases hkt : k = t
    · subst hkt
      simp [addToGroups]
      tauto
    · simp [addToGroups, hkt, ih]
      tauto

lemma keys_nodup_addToGroups (gs : List (Option Nat × List Nat))
    (t : Option Nat) (i : Nat) (h : (gs.map Prod.fst).Nodup) :
    ((addToGroups gs t i).map Prod.fst).Nodup := by
  induction gs with
  | nil => simp [addToGroups]
  | cons p rest ih =>
    obtain ⟨k, l⟩ := p
    simp only [List.map_cons, List.nodup_cons] at h
    obtain ⟨hk, hrest⟩ := h
    by_cases hkt : k = t
    · subst hkt
      simp [addToGroups, List.nodup_cons, hk, hrest]
    · simp only [addToGroups, if_neg hkt, List.map_cons, List.nodup_cons]
      refine ⟨?_, ih hrest⟩
      rw [keys_addToGroups_mem]
      rintro (hmem | rfl)
      · exact hk hmem
      · exact hkt rfl

lemma keys_nodup_buildGroups (t2 : List (Option Nat)) (k : Nat) :
    ((buildGroups t2 k).map Prod.fst).Nodup := by
  induction k with
  | zero => simp [buildGroups]
  | succ k ih =>
    rw [buildGroups_succ]
    exact keys_nodup_addToGroups _ _ _ ih

lemma lookup_of_mem {gs : List (Option Nat × List Nat)}
    (h : (gs.map Prod.fst).Nodup) {p : Option Nat × List Nat} (hp : p ∈ gs) :
    lookupGroup p.1 gs = some p.2 := by
  induction gs with
  | nil => cases hp
  | cons q rest ih =>
    obtain ⟨k, l⟩ := q
    simp only [List.map_cons, List.nodup_cons] at h
    rcases List.mem_cons.mp hp with rfl | hp'
    · simp [lookupGroup]
    · have hne : ¬ k = p.1 := by
        intro he
        apply h.1
        rw [he]
        exact List.mem_map.mpr ⟨p, hp', rfl⟩
      simp only [lookupGroup, if_neg hne]
      exact ih h.2 hp'

lemma mem_of_lookup {gs : List (Option Nat × List Nat)} {v : Option Nat}
    {l : List Nat} (h : lookupGroup v gs = some l) : (v, l) ∈ gs := by
  induction gs with
  | nil => simp [lookupGroup] at h
  | cons q rest ih =>
    obtain ⟨k, m⟩ := q
    simp only [lookupGroup] at h
    by_cases hkv : k = v
    · rw [if_pos hkv] at h
      injection h with h
      subst hkv
      subst h
      exact List.mem_cons_self _ _
    · rw [if_neg hkv] at h
      exact List.mem_cons.mpr (Or.inr (ih h))

lemma supportGroups_spec {t2 : List (Option Nat)}
    {p : Option Nat × List Nat} (hp : p ∈ supportGroups t2) :
    p.2 = groupIdx t2 p.1 := by
  have h1 := lookup_of_mem (keys_nodup_buildGroups t2 t2.length) hp
  rw [lookup_buildGroups] at h1
  by_cases hemp : (List.range t2.length).filter
      (fun i => decide (t2.getD i none = p.1)) = []
  · rw [if_pos hemp] at h1
    simp at h1
  · rw [if_neg hemp] at h1
    injection h1 with h1
    exact h1.symm

lemma mem_supportGroups_of_idx {t2 : List (Option Nat)} {i : Nat}
    (hi : i < t2.length) :
    (t2.getD i none, groupIdx t2 (t2.getD i none)) ∈ supportGroups t2 := by
  apply mem_of_lookup
  have hne : ¬ (List.range t2.length).filter
      (fun j => decide (t2.getD j none = t2.getD i none)) = [] :=
    List.ne_nil_of_mem (a := i) (by
      rw [List.mem_filter]
      simp [List.mem_range, hi])
  unfold supportGroups
  rw [lookup_buildGroups, if_neg hne]
  rfl

lemma foldl_ifappend_eq_flatMap {γ β : Type} (C : γ → Prop) [DecidablePred C]
    (sel : γ → List β) (l : List γ) (init : List β) :
    l.foldl (fun acc g => if C g then acc ++ sel g else acc) init =
      init ++ l.flatMap (fun g => if C g then sel g else []) := by
  induction l generalizing init with
  | nil => simp
  | cons a t ih =>
    rw [List.foldl_cons, List.flatMap_cons, ih]
    by_cases hC : C a
    · rw [if_pos hC, if_pos hC, List.append_assoc]
    · rw [if_neg hC, if_neg hC, List.nil_append]

lemma mem_chopRemoved {t2 : List (Option Nat)} {m i : Nat} :
    i ∈ chopRemoved t2 m ↔
      i < t2.length ∧ m < (groupIdx t2 (t2.getD i none)).length ∧
        i ∈ (groupIdx t2 (t2.getD i none)).drop m := by
  unfold chopRemoved
  rw [foldl_ifappend_eq_flatMap
    (fun g : Option Nat × List Nat => m < g.2.length)
    (fun g => g.2.drop m) (supportGroups t2) []]
  rw [List.nil_append, List.mem_flatMap]
  constructor
  · rintro ⟨g, hg, hmem⟩
    by_cases hC : m < g.2.length
    · rw [if_pos hC] at hmem
      have hspec := supportGroups_spec hg
      have hig : i ∈ g.2 := List.drop_subset _ _ hmem
      rw [hspec] at hig hmem hC
      obtain ⟨hilen, hival⟩ := mem_groupIdx.mp hig
      rw [← hival] at hC hmem
      exact ⟨hilen, hC, hmem⟩
    · rw [if_neg hC] at hmem
      cases hmem
  · rintro ⟨hilen, hC, hmem⟩
    exact ⟨(t2.getD i none, groupIdx t2 (t2.getD i none)),
      mem_supportGroups_of_idx hilen, by rw [if_pos hC]; exact hmem⟩

lemma mem_smallRemoved {t2 : List (Option Nat)} {k i : Nat} :
    i ∈ smallRemoved t2 k ↔
      i < t2.length ∧ (groupIdx t2 (t2.getD i none)).length < k := by
  unfold smallRemoved
  rw [foldl_ifappend_eq_flatMap
    (fun g : Option Nat × List Nat => g.2.length < k)
    (fun g => g.2) (supportGroups t2) []]
  rw [List.nil_append, List.mem_flatMap]
  constructor
  · rintro ⟨g, hg, hmem⟩
    by_cases hC : g.2.length < k
    · rw [if_pos hC] at hmem
      have hspec := supportGroups_spec hg
      rw [hspec] at hmem hC
      obtain ⟨hilen, hival⟩ := mem_groupIdx.mp hmem
      rw [← hival] at hC
      exact ⟨hilen, hC⟩
    · rw [if_neg hC] at hmem
      cases hmem
  · rintro ⟨hilen, hC⟩
    exact ⟨(t2.getD i none, groupIdx t2 (t2.getD i none)),
      mem_supportGroups_of_idx hilen,
      by rw [if_pos hC]; exact mem_groupIdx.mpr ⟨hilen, rfl⟩⟩

lemma retained_filter_val (d : Dataset) (S : List Nat) (v : Option Nat)
    (hn : d.files.length = d.target2.length) :
    (retained_indices d S).filter
      (fun i => decide (d.target2.getD i none = v)) =
      (groupIdx d.target2 v).filter (fun i => decide (i ∉ S)) := by
  unfold retained_indices groupIdx
  rw [hn, List.filter_filter, List.filter_filter]
  apply List.filter_congr
  intro a _
  exact Bool.and_comm _ _

lemma chop_group_filter (t2 : List (Option Nat)) (m : Nat) (v : Option Nat) :
    (groupIdx t2 v).filter (fun i => decide (i ∉ chopRemoved t2 m)) =
      if m < (groupIdx t2 v).length then (groupIdx t2 v).take m
      else groupIdx t2 v := by
  by_cases hbig : m < (groupIdx t2 v).length
  · rw [if_pos hbig]
    have hnd := nodup_groupIdx t2 v
    conv_lhs => rw [← List.take_append_drop m (groupIdx t2 v)]
    rw [List.filter_append]
    have h1 : ((groupIdx t2 v).take m).filter
        (fun i => decide (i ∉ chopRemoved t2 m)) =
        (groupIdx t2 v).take m := by
      rw [List.filter_eq_self]
      intro a ha
      have hag : a ∈ groupIdx t2 v := List.take_subset _ _ ha
      obtain ⟨halen, haval⟩ := mem_groupIdx.mp hag
      rw [decide_eq_true_eq]
      intro hrem
      rw [mem_chopRemoved, haval] at hrem
      exact (List.disjoint_take_drop hnd le_rfl) ha hrem.2.2
    have h2 : ((groupIdx t2 v).drop m).filter
        (fun i => decide (i ∉ chopRemoved t2 m)) = [] := by
      rw [List.filter_eq_nil_iff]
      intro a ha
      have hag : a ∈ groupIdx t2 v := List.drop_subset _ _ ha
      obtain ⟨halen, haval⟩ := mem_groupIdx.mp hag
      rw [decide_eq_true_eq, not_not, mem_chopRemoved, haval]
      exact ⟨halen, hbig, ha⟩
    rw [h1, h2, List.append_nil]
  · rw [if_neg hbig, List.filter_eq_self]
    intro a ha
    obtain ⟨halen, haval⟩ := mem_groupIdx.mp ha
    rw [decide_eq_true_eq]
    intro hrem
    rw [mem_chopRemoved, haval] at hrem
    exact hbig hrem.2.1

lemma small_group_filter (t2 : List (Option Nat)) (k : Nat) (v : Option Nat) :
    (groupIdx t2 v).filter (fun i => decide (i ∉ smallRemoved t2 k)) =
      if (groupIdx t2 v).length < k then [] else groupIdx t2 v := by
  by_cases hsm : (groupIdx t2 v).length < k
  · rw [if_pos hsm, List.filter_eq_nil_iff]
    intro a ha
    obtain ⟨halen, haval⟩ := mem_groupIdx.mp ha
    rw [decide_eq_true_eq, not_not, mem_smallRemoved, haval]
    exact ⟨halen, hsm⟩
  · rw [if_neg hsm, List.filter_eq_self]
    intro a ha
    obtain ⟨halen, haval⟩ := mem_groupIdx.mp ha
    rw [decide_eq_true_eq]
    intro hrem
    rw [mem_smallRemoved, haval] at hrem
    exact hsm hrem.2

lemma count_removeResult (d : Dataset) (S : List Nat)
    (hinv : invariants d) (hc : ∀ t ∈ d.target2, t.isSome = true)
    (v : Option Nat) :
    (removeResult d S).target2.countP (fun x => decide (x = v)) = 0 ∨
      ∃ w : Nat,
        (removeResult d S).target2.countP (fun x => decide (x = v)) =
          ((retained_indices d S).filter
            (fun i => decide (d.target2.getD i none = some w))).length := by
  have hT2 : (removeResult d S).target2 =
      ((keptT2v d S).map
        (fun t => (pySetList (keptT2v d S)).indexOf t)).map some := rfl
  have hkv : keptT2v d S = (retained_indices d S).map
      (fun i => (d.target2.getD i none).getD 0) := by
    unfold keptT2v keptT2
    rw [List.map_map]
    rfl
  have hn : d.files.length = d.target2.length := by
    obtain ⟨⟨e1, e2, e3⟩, -⟩ := hinv
    omega
  cases v with
  | none =>
    left
    rw [hT2, List.countP_map, List.countP_eq_zero]
    intro a _
    simp [Function.comp]
  | some w0 =>
    by_cases hw : w0 < (pySetList (keptT2v d S)).length
    · right
      set vw := (pySetList (keptT2v d S)).getD w0 0 with hvw
      refine ⟨vw, ?_⟩
      rw [hT2, List.countP_map, List.countP_map]
      trans List.countP (fun t => decide (t = vw)) (keptT2v d S)
      · apply List.countP_congr
        intro t ht
        have htu : t ∈ pySetList (keptT2v d S) := mem_pySetList.mpr ht
        simp only [Function.comp_apply, decide_eq_true_eq, Option.some.injEq]
        constructor
        · intro hidx
          rw [hvw, ← hidx]
          exact (getD_indexOf htu 0).symm
        · intro hval
          rw [hval, hvw]
          exact indexOf_getD (nodup_pySetList _) hw 0
      · rw [hkv, List.countP_map]
        trans List.countP
          (fun i => decide (d.target2.getD i none = some vw))
          (retained_indices d S)
        · apply List.countP_congr
          intro i hi
          rw [mem_retained] at hi
          have hlen : i < d.target2.length := by omega
          obtain ⟨ki, hki⟩ := Option.isSome_iff_exists.mp
            (hc _ (List.mem_iff_getElem.mpr ⟨i, hlen, rfl⟩))
          have hgd : d.target2.getD i none = some ki := by
            rw [List.getD_eq_getElem _ _ hlen, hki]
          simp only [Function.comp_apply, decide_eq_true_eq, hgd,
            Option.getD_some, Option.some.injEq]
        · rw [List.countP_eq_length_filter]
    · left
      rw [hT2, List.countP_map, List.countP_map, List.countP_eq_zero]
      intro t ht
      have htu : t ∈ pySetList (keptT2v d S) := mem_pySetList.mpr ht
      have hlt := List.indexOf_lt_length.mpr htu
      simp only [Function.comp_apply, decide_eq_true_eq, Option.some.injEq]
      omega

lemma keptT2_isSome_of_complete (d : Dataset) (S : List Nat)
    (hn : d.files.length = d.target2.length)
    (hc : ∀ t ∈ d.target2, t.isSome = true) :
    ∀ t ∈ keptT2 d S, t.isSome = true := by
  intro t ht
  unfold keptT2 at ht
  rw [List.mem_map] at ht
  obtain ⟨i, hi, rfl⟩ := ht
  rw [mem_retained] at hi
  have hlen : i < d.target2.length := by omega
  rw [List.getD_eq_getElem _ _ hlen]
  exact hc _ (List.mem_iff_getElem.mpr ⟨i, hlen, rfl⟩)

/-- C6 counterexample.  On the invariant-satisfying dataset `dAbsent` (its
absent-marker group has a single member, which the chop with cap 1 retains),
`chop_large_subjects` raises (yields no dataset) because the retained absent
marker reaches `cleanup_target_names`; the claim quantified over all
invariant-satisfying datasets is false. -/
theorem c6_counterexample :
    invariants dAbsent ∧ chop_large_subjects dAbsent 1 = none := by
  constructor
  · decide
  · decide

/-- C6 (amended).  For every dataset satisfying the structural invariants in
which every record's `target2` is present and every cap `m`, the chop
succeeds; in its output every `target2` group has size at most `m`; every
group of input size at most `m` keeps exactly its members (in their original
relative order); and every group exceeding `m` keeps exactly its first `m`
members in their original relative order. -/
theorem c6_chop_bounds (d : Dataset) (m : Nat) (hinv : invariants d)
    (hc : ∀ t ∈ d.target2, t.isSome = true) :
    ∃ D', chop_large_subjects d m = some D' ∧
      (∀ v : Option Nat, D'.target2.countP (fun x => decide (x = v)) ≤ m) ∧
      (∀ v : Option Nat, (groupIdx d.target2 v).length ≤ m →
        (retained_indices d (chopRemoved d.target2 m)).filter
          (fun i => decide (d.target2.getD i none = v)) =
          groupIdx d.target2 v) ∧
      (∀ v : Option Nat, m < (groupIdx d.target2 v).length →
        (retained_indices d (chopRemoved d.target2 m)).filter
          (fun i => decide (d.target2.getD i none = v)) =
          (groupIdx d.target2 v).take m) := by
  have hn : d.files.length = d.target2.length := by
    obtain ⟨⟨e1, e2, e3⟩, -⟩ := hinv
    omega
  have hp := keptT2_isSome_of_complete d (chopRemoved d.target2 m) hn hc
  refine ⟨removeResult d (chopRemoved d.target2 m),
    remove_indices_eq_some (keptT1_bounds hinv _)
      (keptT2v_bounds hinv _ hp) hp, ?_, ?_, ?_⟩
  · intro v
    rcases count_removeResult d (chopRemoved d.target2 m) hinv hc v with
      h0 | ⟨w, hwc⟩
    · rw [h0]
      exact Nat.zero_le m
    · rw [hwc, retained_filter_val d _ _ hn, chop_group_filter]
      by_cases hbig : m < (groupIdx d.target2 (some w)).length
      · rw [if_pos hbig, List.length_take]
        exact min_le_left _ _
      · rw [if_neg hbig]
        omega
  · intro v hle
    rw [retained_filter_val d _ _ hn, chop_group_filter,
      if_neg (by omega)]
  · intro v hgt
    rw [retained_filter_val d _ _ hn, chop_group_filter, if_pos hgt]

/-- C6 witness: the amended theorem instantiated at the complete dataset
`dSample` with cap 1. -/
theorem c6_witness :
    ∃ D', chop_large_subjects dSample 1 = some D' ∧
      (∀ v : Option Nat, D'.target2.countP (fun x => decide (x = v)) ≤ 1) ∧
      (∀ v : Option Nat, (groupIdx dSample.target2 v).length ≤ 1 →
        (retained_indices dSample (chopRemoved dSample.target2 1)).filter
          (fun i => decide (dSample.target2.getD i none = v)) =
          groupIdx dSample.target2 v) ∧
      (∀ v : Option Nat, 1 < (groupIdx dSample.target2 v).length →
        (retained_indices dSample (chopRemoved dSample.target2 1)).filter
          (fun i => decide (dSample.target2.getD i none = v)) =
          (groupIdx dSample.target2 v).take 1) :=
  c6_chop_bounds dSample 1 (by decide) (by decide)

/-- C7 counterexample.  On the invariant-satisfying dataset `dAbsent` (its
absent-marker group has one member, meeting a support threshold of 1, so the
record is retained), `filter_small_subjects` raises (yields no dataset)
because the retained absent marker reaches `cleanup_target_names`; the claim
quantified over all invariant-satisfying datasets is false. -/
theorem c7_counterexample :
    invariants dAbsent ∧ filter_small_subjects dAbsent 1 = none := by
  constructor
  · decide
  · decide

/-- C7 (amended).  For every dataset satisfying the structural invariants in
which every record's `target2` is present and every threshold `k`, the
support filter succeeds; every `target2` group in its output is empty or has
size at least `k`; groups of input size below `k` are dropped entirely;
groups of size at least `k` are kept entirely; and every dropped record
belonged to a group of input size below `k`. -/
theorem c7_filter_small_support (d : Dataset) (k : Nat) (hinv : invariants d)
    (hc : ∀ t ∈ d.target2, t.isSome = true) :
    ∃ D', filter_small_subjects d k = some D' ∧
      (∀ v : Option Nat, D'.target2.countP (fun x => decide (x = v)) = 0 ∨
        k ≤ D'.target2.countP (fun x => decide (x = v))) ∧
      (∀ v : Option Nat, (groupIdx d.target2 v).length < k →
        (retained_indices d (smallRemoved d.target2 k)).filter
          (fun i => decide (d.target2.getD i none = v)) = []) ∧
      (∀ v : Option Nat, k ≤ (groupIdx d.target2 v).length →
        (retained_indices d (smallRemoved d.target2 k)).filter
          (fun i => decide (d.target2.getD i none = v)) =
          groupIdx d.target2 v) ∧
      (∀ i, i < d.files.length →
        i ∉ retained_indices d (smallRemoved d.target2 k) →
        (groupIdx d.target2 (d.target2.getD i none)).length < k) := by
  have hn : d.files.length = d.target2.length := by
    obtain ⟨⟨e1, e2, e3⟩, -⟩ := hinv
    omega
  have hp := keptT2_isSome_of_complete d (smallRemoved d.target2 k) hn hc
  refine ⟨removeResult d (smallRemoved d.target2 k),
    remove_indices_eq_some (keptT1_bounds hinv _)
      (keptT2v_bounds hinv _ hp) hp, ?_, ?_, ?_, ?_⟩
  · intro v
    rcases count_removeResult d (smallRemoved d.target2 k) hinv hc v with
      h0 | ⟨w, hwc⟩
    · exact Or.inl h0
    · rw [hwc, retained_filter_val d _ _ hn, small_group_filter]
      by_cases hsm : (groupIdx d.target2 (some w)).length < k
      · rw [if_pos hsm]
        exact Or.inl rfl
      · rw [if_neg hsm]
        exact Or.inr (by omega)
  · intro v hsm
    rw [retained_filter_val d _ _ hn, small_group_filter, if_pos hsm]
  · intro v hge
    rw [retained_filter_val d _ _ hn, small_group_filter,
      if_neg (by omega)]
  · intro i hif hidrop
    have : i ∈ smallRemoved d.target2 k := by
      by_contra hnot
      exact hidrop (mem_retained.mpr ⟨hif, hnot⟩)
    exact (mem_smallRemoved.mp this).2

/-- C7 witness: the amended theorem instantiated at the complete dataset
`dSample` with support threshold 2. -/
theorem c7_witness :
    ∃ D', filter_small_subjects dSample 2 = some D' ∧
      (∀ v : Option Nat, D'.target2.countP (fun x => decide (x = v)) = 0 ∨
        2 ≤ D'.target2.countP (fun x => decide (x = v))) ∧
      (∀ v : Option Nat, (groupIdx dSample.target2 v).length < 2 →
        (retained_indices dSample (smallRemoved dSample.target2 2)).filter
          (fun i => decide (dSample.target2.getD i none = v)) = []) ∧
      (∀ v : Option Nat, 2 ≤ (groupIdx dSample.target2 v).length →
        (retained_indices dSample (smallRemoved dSample.target2 2)).filter
          (fun i => decide (dSample.target2.getD i none = v)) =
          groupIdx dSample.target2 v) ∧
      (∀ i, i < dSample.files.length →
        i ∉ retained_indices dSample (smallRemoved dSample.target2 2) →
        (groupIdx dSample.target2 (dSample.target2.getD i none)).length <
          2) :=
  c7_filter_small_support dSample 2 (by decide) (by decide)

lemma foldlM_option_isSome {α β : Type} (f : β → α → Option β) (l : List α)
    (init : β) (h : ∀ acc, ∀ a ∈ l, (f acc a).isSome = true) :
    (l.foldlM f init).isSome = true := by
  induction l generalizing init with
  | nil => rfl
  | cons a t ih =>
    rw [List.foldlM_cons]
    obtain ⟨b, hb⟩ := Option.isSome_iff_exists.mp (h init a (by simp))
    rw [hb]
    show (t.foldlM f b).isSome = true
    exact ih b (fun acc x hx => h acc x (by simp [hx]))

lemma get_indices_isSome (d : Dataset) (hinv : invariants d)
    (hc : ∀ t ∈ d.target2, t.isSome = true) :
    (get_indices d).isSome = true := by
  unfold get_indices
  apply foldlM_option_isSome
  intro acc i hi
  rw [List.mem_range] at hi
  obtain ⟨⟨e1, e2, e3⟩, hb1, hb2, -⟩ := hinv
  have hi1 : i < d.target1.length := by omega
  have hv1 : d.target1[i]? = some d.target1[i] :=
    List.getElem?_eq_getElem hi1
  have hn1lt : d.target1[i] < d.target1_names.length :=
    hb1 _ (List.mem_iff_getElem.mpr ⟨i, hi1, rfl⟩)
  have hn1 : d.target1_names[d.target1[i]]? =
      some d.target1_names[d.target1[i]] :=
    List.getElem?_eq_getElem hn1lt
  have hv2 : d.target2[i]? = some d.target2[i] :=
    List.getElem?_eq_getElem hi
  obtain ⟨k, hk⟩ := Option.isSome_iff_exists.mp
    (hc _ (List.mem_iff_getElem.mpr ⟨i, hi, rfl⟩))
  have hklt : k < d.target2_names.length :=
    hb2 _ (List.mem_iff_getElem.mpr ⟨i, hi, rfl⟩) k hk
  have hn2 : d.target2_names[k]? = some d.target2_names[k] :=
    List.getElem?_eq_getElem hklt
  simp [hv1, hn1, hv2, hk, hn2]

/-- C10 (confirmed).  `get_indices` is only defined on complete datasets: for
every invariant-satisfying dataset whose records all carry a present
`target2`, every name-table lookup is in bounds and the nested mapping is
returned without error; and because the raw `target2` value is used to index
`target2_names` unconditionally, the error branch is reachable — on the
invariant-satisfying dataset `dAbsent` containing the absent marker, the
lookup fails (`get_indices` raises). -/
theorem c10_get_indices_complete_only :
    (∀ d : Dataset, invariants d → (∀ t ∈ d.target2, t.isSome = true) →
      (get_indices d).isSome = true) ∧
    invariants dAbsent ∧ get_indices dAbsent = none :=
  ⟨fun d hinv hc => get_indices_isSome d hinv hc, by decide, by decide⟩

/-- C10 witness: the positive half applied to the complete dataset
`dSample`. -/
theorem c10_witness : (get_indices dSample).isSome = true :=
  c10_get_indices_complete_only.1 dSample (by decide) (by decide)

end LegalIntelligence
